import Mathlib

/-!
Verification of the sandboxed file-access library (`src/filesystem/lib.ts`).

The TypeScript source is shallowly embedded: JavaScript strings are Lean
`String`s manipulated through list-of-character primitives that mirror the
JavaScript string methods used by the source; the Node.js filesystem is an
explicit oracle/state passed to each operation; fallible code returns
`Except`.  Helper modules that the library imports but whose source is not
part of the repository snapshot (`path-utils.ts`, `path-validation.ts`) are
modelled from the specification and marked as such.
-/

namespace FsMcp

/-! ## JavaScript string primitives -/

/-- String prefix test computed on the underlying character lists (the core
`String.isPrefixOf` is defined by well-founded recursion and does not reduce
inside the kernel). -/
def strIsPrefixOf (p s : String) : Bool :=
  p.data.isPrefixOf s.data

/-- Characters matched by JavaScript `\s` / trimmed by `trim()` (ASCII part). -/
def isJsWS (c : Char) : Bool :=
  c == ' ' || c == '\t' || c == '\n' || c == '\r' || c == '\x0b' || c == '\x0c'

/-- JavaScript `s.split(sep)` for a single-character separator: splitting the
empty string yields `[""]`. -/
def splitOnCharList (sep : Char) : List Char → List (List Char)
  | [] => [[]]
  | c :: rest =>
    let r := splitOnCharList sep rest
    if c == sep then [] :: r
    else
      match r with
      | [] => [[c]]
      | h :: t => (c :: h) :: t

/-- JavaScript `s.split('\n')` on `String`s. -/
def jsSplitNl (s : String) : List String :=
  (splitOnCharList '\n' s.data).map String.mk

/-- JavaScript `arr.join('\n')`. -/
def jsJoinNl (lines : List String) : String :=
  String.intercalate "\n" lines

/-- JavaScript `hay.includes(needle)`: the empty needle always matches. -/
def containsSub (needle : List Char) : List Char → Bool
  | [] => needle.isEmpty
  | c :: t => needle.isPrefixOf (c :: t) || containsSub needle t

/-- JavaScript `s.includes(sub)` on `String`s. -/
def jsIncludes (s sub : String) : Bool :=
  containsSub sub.data s.data

/-- JavaScript `s.replace(old, new)` with a string pattern: replaces only the
first occurrence; an empty pattern matches at the start. -/
def replaceFirstAux (old new : List Char) : List Char → List Char
  | [] => []
  | c :: t =>
    if old.isPrefixOf (c :: t) then new ++ (c :: t).drop old.length
    else c :: replaceFirstAux old new t

def jsReplaceFirst (s old new : String) : String :=
  if old.data.isEmpty then new ++ s
  else String.mk (replaceFirstAux old.data new.data s.data)

/-- JavaScript `s.trim()`. -/
def jsTrim (s : String) : String :=
  String.mk (((s.data.dropWhile isJsWS).reverse.dropWhile isJsWS).reverse)

/-- JavaScript `s.trimStart()`. -/
def jsTrimStart (s : String) : String :=
  String.mk (s.data.dropWhile isJsWS)

/-- JavaScript `s.match(/^\s*/)?.[0] || ''`: the leading whitespace of a line. -/
def leadingWS (s : String) : String :=
  String.mk (s.data.takeWhile isJsWS)

/-- Source `normalizeLineEndings` (lib.ts): `text.replace(/\r\n/g, '\n')`. -/
def normalizeCRLF : List Char → List Char
  | '\r' :: '\n' :: rest => '\n' :: normalizeCRLF rest
  | c :: rest => c :: normalizeCRLF rest
  | [] => []

def normalizeLineEndings (text : String) : String :=
  String.mk (normalizeCRLF text.data)

/-! ## Path manipulation

The library imports `normalizePath` and `expandHome` from `path-utils.ts` and
`isPathWithinAllowedDirectories` from `path-validation.ts`; those two modules
are not part of the repository snapshot, so they are modelled from the
specification (spec §4.1 steps 1–2).  Paths are POSIX style. -/

/-- Split an absolute or relative POSIX path into its nonempty segments. -/
def pathSegs (p : String) : List String :=
  ((splitOnCharList '/' p.data).map String.mk).filter (fun s => s ≠ "")

/-- Resolve `.` and `..` segments against a segment stack. -/
def normSegs (segs : List String) : List String :=
  segs.foldl
    (fun acc seg =>
      if seg = "." then acc
      else if seg = ".." then acc.dropLast
      else acc ++ [seg]) []

/-- Rebuild a path string from segments; the empty list is the root `/`. -/
def joinSegs (segs : List String) : String :=
  "/" ++ String.intercalate "/" segs

/-- Modelled from the spec: `expandHome` of `path-utils.ts` (module absent from
the snapshot) — "Expand a leading home-directory shorthand" (spec §4.1 step 1). -/
def expandHome (home p : String) : String :=
  if p = "~" then home
  else if strIsPrefixOf "~/" p then home ++ String.mk (p.data.drop 1)
  else p

/-- Modelled from the spec: Node `path.resolve` — "resolve to an absolute path
(relative to the process's working directory if not already absolute)"
(spec §4.1 step 1). -/
def resolveAbsolute (cwd p : String) : String :=
  if strIsPrefixOf "/" p then joinSegs (normSegs (pathSegs p))
  else joinSegs (normSegs (pathSegs (cwd ++ "/" ++ p)))

/-- Modelled from the spec: `normalizePath` of `path-utils.ts` (module absent
from the snapshot) — "Canonicalize path separators/case per the running OS's
rules (without resolving symlinks)" (spec §4.1 step 2); on POSIX this is
segment normalization. -/
def normalizePath (p : String) : String :=
  joinSegs (normSegs (pathSegs p))

/-- Modelled from the spec: `isPathWithinAllowedDirectories` of
`path-validation.ts` (module absent from the snapshot) — "Containment test:
path equals a root, or starts with `root + separator`" (spec §4.1 step 2). -/
def isPathWithinAllowedDirectories (p : String) (dirs : List String) : Bool :=
  dirs.any (fun d => p = d || strIsPrefixOf (d ++ "/") p)

/-- Node `path.dirname` on an absolute path. -/
def dirname (p : String) : String :=
  joinSegs (pathSegs p).dropLast

/-! ## Errors and the filesystem oracle -/

/-- The distinct `new Error(...)` sites of `validatePath` (plain JavaScript
`Error`s, carrying no `code` property). -/
inductive AppErrorKind
  | accessDenied
  | symlinkEscape
  | accessDeniedParent
  | parentMissing
  deriving DecidableEq, Repr

/-- A JavaScript exception: either an `ErrnoException` from the `fs` module
(with its `code` string) or one of the library's own `Error`s. -/
inductive JSError
  | fsError (code : String)
  | appError (k : AppErrorKind)
  deriving DecidableEq, Repr

/-- The `code` property read by `(error as NodeJS.ErrnoException).code`:
`none` models `undefined` (a plain `Error` has no such property). -/
def JSError.errnoCode : JSError → Option String
  | .fsError c => some c
  | .appError _ => none

/-- The filesystem behavior `validatePath` can observe: `fs.realpath`,
returning the fully resolved path or rejecting with an errno code. -/
structure FSOracle where
  realpath : String → Except String String

instance {ε α : Type} [DecidableEq ε] [DecidableEq α] : DecidableEq (Except ε α) :=
  fun a b =>
    match a, b with
    | .ok x, .ok y => decidable_of_iff (x = y) (by simp)
    | .error x, .error y => decidable_of_iff (x = y) (by simp)
    | .ok _, .error _ => isFalse (by simp)
    | .error _, .ok _ => isFalse (by simp)

/-! ## validatePath (lib.ts lines 107–148)

The embedding also returns the list of `fs.realpath` arguments, in call
order, so that "no filesystem call is performed" is expressible. -/

def validatePathT (fs : FSOracle) (allowedDirectories : List String)
    (cwd home requestedPath : String) : Except JSError String × List String :=
  let expandedPath := expandHome home requestedPath
  let absolute := resolveAbsolute cwd expandedPath
  let normalizedRequested := normalizePath absolute
  let isAllowed := isPathWithinAllowedDirectories normalizedRequested allowedDirectories
  if !isAllowed then
    (.error (.appError .accessDenied), [])
  else
    -- outer try: fs.realpath(absolute), symlink containment check
    let tryBody : Except JSError String :=
      match fs.realpath absolute with
      | .ok realPath =>
        if !isPathWithinAllowedDirectories (normalizePath realPath) allowedDirectories then
          .error (.appError .symlinkEscape)
        else
          .ok realPath
      | .error code => .error (.fsError code)
    match tryBody with
    | .ok r => (.ok r, [absolute])
    | .error e =>
      -- catch (error): only an ENOENT errno takes the parent-directory branch
      if e.errnoCode = some "ENOENT" then
        let parentDir := dirname absolute
        -- inner try: fs.realpath(parentDir), parent containment check
        let innerBody : Except JSError String :=
          match fs.realpath parentDir with
          | .ok realParentPath =>
            if !isPathWithinAllowedDirectories (normalizePath realParentPath) allowedDirectories then
              .error (.appError .accessDeniedParent)
            else
              .ok absolute
          | .error code2 => .error (.fsError code2)
        match innerBody with
        | .ok r => (.ok r, [absolute, parentDir])
        | .error _ =>
          -- the bare `catch` replaces every inner failure, including the
          -- parent-escape Error, with "Parent directory does not exist"
          (.error (.appError .parentMissing), [absolute, parentDir])
      else
        (.error e, [absolute])

/-- Source `validatePath`: the returned promise, without the call trace. -/
def validatePath (fs : FSOracle) (allowedDirectories : List String)
    (cwd home requestedPath : String) : Except JSError String :=
  (validatePathT fs allowedDirectories cwd home requestedPath).1

/-! ## Mutable filesystem state for the write operations

A directory is a finite map from paths to file contents, as an association
list.  An entry stands for any directory entry, including a symlink: the
`wx` flag of `fs.writeFile` fails with `EEXIST` whenever the target path has
an entry of any kind.  Failures that depend on the environment (permissions,
disk errors, races) are injected through explicit `Option` knobs. -/

abbrev Files := List (String × String)

def fsHas (s : Files) (p : String) : Bool :=
  s.any (fun e => e.1 = p)

def fsGet (s : Files) (p : String) : Option String :=
  (s.find? (fun e => e.1 = p)).map (·.2)

def fsSet (s : Files) (p c : String) : Files :=
  if fsHas s p then s.map (fun e => if e.1 = p then (p, c) else e)
  else s ++ [(p, c)]

def fsRemove (s : Files) (p : String) : Files :=
  s.filter (fun e => e.1 ≠ p)

/-- Node `fs.writeFile(path, content, { flag: 'wx' })`: exclusive creation —
rejects with `EEXIST` if the target exists (including as a symlink); any
other environment-caused failure is injected via `extraFail`. -/
def wxWriteFile (extraFail : Option String) (s : Files) (p c : String) :
    Except String Files :=
  if fsHas s p then .error "EEXIST"
  else
    match extraFail with
    | some code => .error code
    | none => .ok (fsSet s p c)

/-- Node `fs.writeFile(path, content, 'utf-8')`: plain write, with an injected
failure knob. -/
def plainWriteFile (fail : Option String) (s : Files) (p c : String) :
    Except String Files :=
  match fail with
  | some code => .error code
  | none => .ok (fsSet s p c)

/-- Node `fs.rename(src, dst)`: atomically replaces `dst` with `src`'s entry. -/
def renameFile (fail : Option String) (s : Files) (src dst : String) :
    Except String Files :=
  match fail with
  | some code => .error code
  | none =>
    match fsGet s src with
    | none => .error "ENOENT"
    | some c => .ok (fsSet (fsRemove s src) dst c)

/-- Node `fs.unlink(p)`: removes the entry; fails with `ENOENT` when absent. -/
def unlinkFile (fail : Bool) (s : Files) (p : String) : Except String Files :=
  if fail then .error "EPERM"
  else if fsHas s p then .ok (fsRemove s p)
  else .error "ENOENT"

/-- The temp-file name `${filePath}.${randomBytes(16).toString('hex')}.tmp`;
the random hex string is passed in as `suffix`. -/
def tempPathOf (filePath suffix : String) : String :=
  filePath ++ "." ++ suffix ++ ".tmp"

/-- Environment knobs for one `writeFileContent` call: the random temp-name
suffix and the injected failure of each filesystem operation it may perform. -/
structure WriteEnv where
  tempSuffix : String
  wxExtraFail : Option String
  tmpWriteFail : Option String
  renameFail : Option String
  unlinkFail : Bool

/-! ## writeFileContent (lib.ts lines 169–193) -/

def writeFileContent (env : WriteEnv) (s : Files) (filePath content : String) :
    Except String Unit × Files :=
  match wxWriteFile env.wxExtraFail s filePath content with
  | .ok s1 => (.ok (), s1)
  | .error code =>
    if code = "EEXIST" then
      let tempPath := tempPathOf filePath env.tempSuffix
      match plainWriteFile env.tmpWriteFail s tempPath content with
      | .ok s1 =>
        match renameFile env.renameFail s1 tempPath filePath with
        | .ok s2 => (.ok (), s2)
        | .error renameError =>
          -- catch (renameError): try { await fs.unlink(tempPath) } catch {}
          match unlinkFile env.unlinkFail s1 tempPath with
          | .ok s2 => (.error renameError, s2)
          | .error _ => (.error renameError, s1)
      | .error werr =>
        match unlinkFile env.unlinkFail s tempPath with
        | .ok s1 => (.error werr, s1)
        | .error _ => (.error werr, s)
    else (.error code, s)

/-! ## applyFileEdits (lib.ts lines 202–290) -/

structure FileEdit where
  oldText : String
  newText : String
  deriving DecidableEq, Repr

/-- One window comparison of the fuzzy matcher: `oldLines.every((oldLine, j)
=> oldLine.trim() === potentialMatch[j].trim())`. -/
def windowMatches (oldLines contentLines : List String) (i : Nat) : Bool :=
  oldLines.enum.all (fun je => jsTrim je.2 = jsTrim (contentLines.getD (i + je.1) ""))

/-- The scan `for (let i = 0; i <= contentLines.length - oldLines.length; i++)`
accepting the first matching window (the JavaScript bound is negative — so the
loop body never runs — exactly when the truncated subtraction is zero and the
lengths differ, covered by `List.range` of the truncated bound plus one). -/
def findMatchIndex (oldLines contentLines : List String) : Option Nat :=
  (List.range (contentLines.length + 1 - oldLines.length)).find?
    (fun i => windowMatches oldLines contentLines i)

/-- Replacement-line reconstruction at a window match (lib.ts 238–249). -/
def buildNewLines (originalIndent : String) (oldLines newSplit : List String) :
    List String :=
  newSplit.enum.map (fun je =>
    let j := je.1
    let line := je.2
    if j = 0 then originalIndent ++ jsTrimStart line
    else
      let oldIndent := leadingWS (oldLines.getD j "")
      let newIndent := leadingWS line
      if oldIndent ≠ "" ∧ newIndent ≠ "" then
        originalIndent ++
          String.mk (List.replicate (newIndent.length - oldIndent.length) ' ') ++
          jsTrimStart line
      else line)

/-- One iteration of the edit loop (lib.ts 212–260): exact substring
replacement, then the whitespace-tolerant line-window fallback; errors carry
the raw `edit.oldText` (the `Could not find exact match for edit` throw). -/
def applyEdit (modifiedContent : String) (edit : FileEdit) : Except String String :=
  let normalizedOld := normalizeLineEndings edit.oldText
  let normalizedNew := normalizeLineEndings edit.newText
  if jsIncludes modifiedContent normalizedOld then
    .ok (jsReplaceFirst modifiedContent normalizedOld normalizedNew)
  else
    let oldLines := jsSplitNl normalizedOld
    let contentLines := jsSplitNl modifiedContent
    match findMatchIndex oldLines contentLines with
    | some i =>
      let originalIndent := leadingWS (contentLines.getD i "")
      let newLines := buildNewLines originalIndent oldLines (jsSplitNl normalizedNew)
      let spliced := contentLines.take i ++ newLines ++ contentLines.drop (i + oldLines.length)
      .ok (jsJoinNl spliced)
    | none => .error edit.oldText

/-- The sequential edit loop: each edit is applied against the evolving
document; the first failure aborts. -/
def applyEditsPure (content : String) : List FileEdit → Except String String
  | [] => .ok content
  | e :: rest =>
    match applyEdit content e with
    | .ok c => applyEditsPure c rest
    | .error msg => .error msg

/-- Source `createUnifiedDiff` (lib.ts 91–104): normalizes both sides, then
calls `createTwoFilesPatch` from the external `diff` package, abstracted here
as the function parameter `mkDiff`. -/
def createUnifiedDiff (mkDiff : String → String → String)
    (originalContent newContent : String) : String :=
  mkDiff (normalizeLineEndings originalContent) (normalizeLineEndings newContent)

/-- The backtick character, written by code point to keep the source ASCII-clean. -/
def btick : Char := Char.ofNat 96

/-- The fence-length search `while (diff.includes('`'.repeat(numBackticks)))
numBackticks++`, with explicit fuel; a run of `n` backticks can occur in
`diff` only for `n ≤ diff.length`, so fuel `diff.length + 1` is exact. -/
def fenceTicksAux (diffChars : List Char) : Nat → Nat → Nat
  | n, 0 => n
  | n, fuel + 1 =>
    if containsSub (List.replicate n btick) diffChars then
      fenceTicksAux diffChars (n + 1) fuel
    else n

def fenceTicks (diff : String) : Nat :=
  fenceTicksAux diff.data 3 (diff.length + 1)

/-- Lines 264–271: the fenced diff string returned by `applyFileEdits`. -/
def formattedDiffOf (mkDiff : String → String → String)
    (content modifiedContent : String) : String :=
  let diff := createUnifiedDiff mkDiff content modifiedContent
  let ticks := String.mk (List.replicate (fenceTicks diff) btick)
  ticks ++ "diff\n" ++ diff ++ ticks ++ "\n\n"

/-- Error outcomes of `applyFileEdits`. -/
inductive EditError
  | noMatchFound (oldText : String)
  | fsError (code : String)
  deriving DecidableEq, Repr

/-- Environment knobs for one `applyFileEdits` call. -/
structure EditEnv where
  tempSuffix : String
  tmpWriteFail : Option String
  renameFail : Option String
  unlinkFail : Bool
  mkDiff : String → String → String

def applyFileEdits (env : EditEnv) (s : Files) (filePath : String)
    (edits : List FileEdit) (dryRun : Bool) : Except EditError String × Files :=
  match fsGet s filePath with
  | none => (.error (.fsError "ENOENT"), s)
  | some raw =>
    let content := normalizeLineEndings raw
    match applyEditsPure content edits with
    | .error oldText => (.error (.noMatchFound oldText), s)
    | .ok modifiedContent =>
      let formattedDiff := formattedDiffOf env.mkDiff content modifiedContent
      if dryRun then (.ok formattedDiff, s)
      else
        let tempPath := tempPathOf filePath env.tempSuffix
        match plainWriteFile env.tmpWriteFail s tempPath modifiedContent with
        | .ok s1 =>
          match renameFile env.renameFail s1 tempPath filePath with
          | .ok s2 => (.ok formattedDiff, s2)
          | .error e =>
            match unlinkFile env.unlinkFail s1 tempPath with
            | .ok s2 => (.error (.fsError e), s2)
            | .error _ => (.error (.fsError e), s1)
        | .error e =>
          match unlinkFile env.unlinkFail s tempPath with
          | .ok s1 => (.error (.fsError e), s1)
          | .error _ => (.error (.fsError e), s)

/-! ## tailFile (lib.ts lines 293–342) and headFile (lines 345–380)

The file is its content string; ASCII content is assumed so that byte offsets
and character offsets coincide (`stats.size` and `fileHandle.read` count
bytes, the chunks are then UTF-8 decoded).  The `while` loops become
fuel-indexed structural recursions; each `tailFile` iteration decreases
`position` by at least one and each `headFile` iteration advances `bytesRead`
by at least one, so fuel `fileSize` (resp. `fileSize + 1`) never runs out. -/

def CHUNK_SIZE : Nat := 1024

/-- The backward chunk loop of `tailFile` (lines 310–336).  State:
`position` (next read ends here), `linesFound`, the carried partial first
line `remainingText`, and the collected `lines`. -/
def tailLoop (content : String) (numLines : Nat) :
    Nat → Nat → Nat → String → List String → List String
  | 0, _, _, _, lines => lines
  | fuel + 1, position, linesFound, remainingText, lines =>
    if position > 0 ∧ linesFound < numLines then
      let size := min CHUNK_SIZE position
      let posAfter := position - size
      let readData := String.mk ((content.data.drop posAfter).take size)
      let chunkText := readData ++ remainingText
      let chunkLines := jsSplitNl (normalizeLineEndings chunkText)
      let remainingNext := if posAfter > 0 then chunkLines.headD "" else remainingText
      let usable := if posAfter > 0 then chunkLines.tail else chunkLines
      -- for (let i = chunkLines.length - 1; i >= 0 && linesFound < numLines; i--)
      --   lines.unshift(chunkLines[i])
      let taken := (usable.reverse.take (numLines - linesFound)).reverse
      tailLoop content numLines fuel posAfter (linesFound + taken.length)
        remainingNext (taken ++ lines)
    else lines

/-- Source `tailFile`, instrumented with whether the file was opened for
reading (`fs.open` is reached only when `stats.size` is nonzero). -/
def tailFileT (content : String) (numLines : Nat) : String × Bool :=
  let fileSize := content.length
  if fileSize = 0 then ("", false)
  else (jsJoinNl (tailLoop content numLines fileSize fileSize 0 "" []), true)

/-- JavaScript `buffer.lastIndexOf('\n')` as an `Option`al character index. -/
def lastIndexOfNl (s : String) : Option Nat :=
  match s.data.reverse.findIdx? (fun c => c == '\n') with
  | some k => some (s.length - 1 - k)
  | none => none

/-- The forward chunk loop of `headFile` (lines 354–369); returns the
collected lines and the leftover buffer at loop exit. -/
def headLoop (content : String) (numLines : Nat) :
    Nat → Nat → String → List String → List String × String
  | 0, _, buffer, lines => (lines, buffer)
  | fuel + 1, bytesRead, buffer, lines =>
    if lines.length < numLines then
      let readN := min CHUNK_SIZE (content.length - bytesRead)
      if readN = 0 then (lines, buffer)
      else
        let bufferGrown := buffer ++ String.mk ((content.data.drop bytesRead).take readN)
        match lastIndexOfNl bufferGrown with
        | none => headLoop content numLines fuel (bytesRead + readN) bufferGrown lines
        | some idx =>
          let completeLines := jsSplitNl (String.mk (bufferGrown.data.take idx))
          let bufferRest := String.mk (bufferGrown.data.drop (idx + 1))
          -- for (const line of completeLines) { push; break once numLines reached }
          let linesNext := lines ++ completeLines.take (numLines - lines.length)
          headLoop content numLines fuel (bytesRead + readN) bufferRest linesNext
    else (lines, buffer)

/-- Source `headFile`: run the loop, then flush a trailing partial line when
lines are still needed. -/
def headFile (content : String) (numLines : Nat) : String :=
  let r := headLoop content numLines (content.length + 1) 0 "" []
  let lines := r.1
  let buffer := r.2
  let flushed := if buffer.length > 0 ∧ lines.length < numLines then lines ++ [buffer] else lines
  jsJoinNl flushed

/-! ## searchFileContents (lib.ts lines 426–642): the global result cap

The JavaScript `RegExp` engine is external: the line test built at lines
458–484 (`matchesPattern`, including `invertMatch`) is abstracted as an
oracle, as are the `minimatch`-based exclusion and the per-file
`validatePath` outcome.  The walk order of `searchDirectory` flattens to the
sequence of candidate files it feeds to `searchInFile`; the cap logic of
lines 489–534 and 596–614 is embedded verbatim. -/

structure GrepCtx where
  matchesPattern : String → Bool
  maxResults : Nat

structure GrepFS where
  validateOk : String → Bool
  excluded : String → Bool
  readFileOk : String → Option String

/-- The match loop over one file's lines (lib.ts 510–534): records 1-based
line numbers, incrementing the shared `totalMatches` and stopping at the cap. -/
def grepFileLines (ctx : GrepCtx) : List String → Nat → Nat → List Nat × Nat
  | [], _, total => ([], total)
  | line :: rest, i, total =>
    if total ≥ ctx.maxResults then ([], total)
    else if ctx.matchesPattern line then
      let r := grepFileLines ctx rest (i + 1) (total + 1)
      ((i + 1) :: r.1, r.2)
    else grepFileLines ctx rest (i + 1) total

/-- Source `searchInFile` (lib.ts 489–585), reduced to the data the cap
property depends on: `some lineNumbers` when a nonempty per-file report is
pushed, `none` when the file is skipped or matches nothing. -/
def searchInFile (ctx : GrepCtx) (fsg : GrepFS) (filePath : String) (total : Nat) :
    Option (List Nat) × Nat :=
  if total ≥ ctx.maxResults then (none, total)
  else if !fsg.validateOk filePath then (none, total)
  else if fsg.excluded filePath then (none, total)
  else
    match fsg.readFileOk filePath with
    | none => (none, total)
    | some content =>
      let lines := jsSplitNl (normalizeLineEndings content)
      let r := grepFileLines ctx lines 0 total
      (if r.1.isEmpty then none else some r.1, r.2)

/-- The iteration of `searchDirectory` over the candidate files, threading
`totalMatches` and breaking at the cap (lib.ts 596–614). -/
def searchFiles (ctx : GrepCtx) (fsg : GrepFS) : List String → Nat →
    List (String × List Nat) × Nat
  | [], total => ([], total)
  | f :: rest, total =>
    if total ≥ ctx.maxResults then ([], total)
    else
      match searchInFile ctx fsg f total with
      | (none, t) => searchFiles ctx fsg rest t
      | (some ms, t) =>
        let r := searchFiles ctx fsg rest t
        ((f, ms) :: r.1, r.2)

/-- Number of matching lines a file would contribute without any cap. -/
def fileAvail (ctx : GrepCtx) (fsg : GrepFS) (filePath : String) : Nat :=
  if !fsg.validateOk filePath then 0
  else if fsg.excluded filePath then 0
  else
    match fsg.readFileOk filePath with
    | none => 0
    | some content =>
      (jsSplitNl (normalizeLineEndings content)).countP (fun l => ctx.matchesPattern l)

/-! ## searchFilesWithValidation: the plocate tier

Embedded from the plocate-enabled `searchFilesWithValidation` variant shipped
in the repository snapshot (appended to `__tests__/lib.test.ts`), whose tier
behavior the test suite pins down; the `lib.ts` copy at lines 382–423
contains only the Tier-3 walk.  The external `plocate` process and the
in-process recursive walk are oracles; `minimatch` is an oracle as well. -/

def dropSlashes : List Char → List Char
  | '/' :: rest => dropSlashes rest
  | l => l

/-- The replace of `/^\*\*\/+/` with the empty string. -/
def stripLeadingGlobstar (l : List Char) : List Char :=
  match l with
  | '*' :: '*' :: '/' :: rest => dropSlashes rest
  | _ => l

/-- The replace of `/\/+\*\*$/` with the empty string. -/
def stripTrailingGlobstar (l : List Char) : List Char :=
  match l.reverse with
  | '*' :: '*' :: '/' :: rest => (dropSlashes rest).reverse
  | _ => l

/-- The global replace of `/\*\*\/+/` with the empty string: each `**`
followed by a run of slashes is removed, scanning resuming after the run.
Fuel-indexed; every step consumes at least one character, so fuel
`l.length` suffices. -/
def removeGlobstarSlashF : Nat → List Char → List Char
  | 0, l => l
  | _ + 1, [] => []
  | fuel + 1, '*' :: '*' :: '/' :: rest => removeGlobstarSlashF fuel (dropSlashes rest)
  | fuel + 1, c :: rest => c :: removeGlobstarSlashF fuel rest

/-- The global replace of `/\/+\*\*/` with the empty string: a maximal run of
slashes immediately followed by `**` is removed (no shorter sub-run can match,
since the character after a shorter run is another slash). -/
def removeSlashGlobstarF : Nat → List Char → List Char
  | 0, l => l
  | _ + 1, [] => []
  | fuel + 1, '/' :: rest =>
    (match dropSlashes rest with
     | '*' :: '*' :: rest2 => removeSlashGlobstarF fuel rest2
     | _ => '/' :: removeSlashGlobstarF fuel rest)
  | fuel + 1, c :: rest => c :: removeSlashGlobstarF fuel rest

/-- Source `preparePatternForPlocate`: strip recursive-wildcard segments, then
refuse patterns plocate cannot run (returning `none` falls back to the walk). -/
def preparePatternForPlocate (globPattern : String) : Option String :=
  let l1 := stripLeadingGlobstar globPattern.data
  let l2 := stripTrailingGlobstar l1
  let l3 := removeGlobstarSlashF l2.length l2
  let l4 := removeSlashGlobstarF l3.length l3
  let converted := String.mk l4
  if containsSub ['*', '*'] l4 ||
     containsSub [Char.ofNat 123] l4 ||
     containsSub ['!', '('] l4 ||
     containsSub ['?', '('] l4 ||
     containsSub ['*', '('] l4 ||
     containsSub ['+', '('] l4 ||
     containsSub ['@', '('] l4 ||
     converted = "" ||
     converted = "/" ||
     strIsPrefixOf "!" converted ||
     containsSub ['\\'] l4 then
    none
  else some converted

/-- String suffix test on character lists. -/
def strEndsWith (s suffix : String) : Bool :=
  suffix.data.reverse.isPrefixOf s.data.reverse

/-- Node `path.relative(from, to)` for absolute POSIX paths, modelled from its
documented behavior: pop the shared segment prefix, then `..` for each
remaining segment of `from`. -/
def nodeRelative (fromP toP : String) : String :=
  let rec dropCommon : List String → List String → List String × List String
    | a :: as', b :: bs => if a = b then dropCommon as' bs else (a :: as', b :: bs)
    | as', bs => (as', bs)
  let p := dropCommon (pathSegs fromP) (pathSegs toP)
  String.intercalate "/" (p.1.map (fun _ => "..") ++ p.2)

/-- Outcome of one `execFileAsync('plocate', ...)` call: resolved `stdout`, or
a rejection whose `code` property is the exit status (`none` models a
rejection without a numeric code, e.g. a timeout kill). -/
structure PlocateEnv where
  available : Bool
  run : String → Except (Option Int) String
  walkResults : List String

/-- The result filter applied to plocate output (appended lib.ts variant,
parse-and-filter block): trim and drop empty lines, keep paths under
`rootPath` (equal or prefix-with-slash), re-validate through `validatePath`,
then apply the exclude globs via `minimatch` (oracle `mm`). -/
def filterPlocateResults (fs : FSOracle) (allowed : List String) (cwd home : String)
    (mm : String → String → Bool) (rootPath : String) (excludePatterns : List String)
    (stdout : String) : List String :=
  let allPaths := ((jsSplitNl stdout).map jsTrim).filter (fun l => l.length > 0)
  let normalizedRoot := normalizePath rootPath
  let rootPathWithSlash :=
    if strEndsWith normalizedRoot "/" then normalizedRoot else normalizedRoot ++ "/"
  allPaths.filter (fun filePath =>
    let normalized := normalizePath filePath
    (normalized = normalizedRoot || strIsPrefixOf rootPathWithSlash normalized) &&
    (match validatePath fs allowed cwd home filePath with
     | .ok _ => true
     | .error _ => false) &&
    !(excludePatterns.any (fun ep => mm (nodeRelative rootPath filePath) ep)))

/-- Source `searchFilesWithValidation` (plocate-enabled variant), instrumented
with whether the Tier-3 in-process walk ran; the walk itself is the oracle
`env.walkResults`. -/
def searchFilesWithValidationT (env : PlocateEnv) (fs : FSOracle)
    (allowed : List String) (cwd home : String) (mm : String → String → Bool)
    (rootPath pattern : String) (excludePatterns : List String) :
    List String × Bool :=
  if env.available then
    match preparePatternForPlocate pattern with
    | some plocatePattern =>
      match env.run plocatePattern with
      | .ok stdout =>
        (filterPlocateResults fs allowed cwd home mm rootPath excludePatterns stdout,
         false)
      | .error code =>
        -- exit status 1 is plocate's "no matches": a successful empty result
        if code = some 1 then ([], false)
        -- any other failure logs and falls through to the recursive walk
        else (env.walkResults, true)
    | none => (env.walkResults, true)
  else (env.walkResults, true)

/-! ## The allow-list accessor pair (lib.ts lines 11–21)

JavaScript arrays are heap references; mutation is visible through every
alias.  The heap is a list of array values indexed by reference. -/

structure Heap where
  arrs : List (List String)

def Heap.alloc (h : Heap) (v : List String) : Heap × Nat :=
  (⟨h.arrs ++ [v]⟩, h.arrs.length)

def Heap.read (h : Heap) (r : Nat) : List String :=
  h.arrs.getD r []

def Heap.write (h : Heap) (r : Nat) (v : List String) : Heap :=
  ⟨h.arrs.set r v⟩

/-- Source `setAllowedDirectories`: `allowedDirectories = [...directories]` —
the module variable receives a reference to a fresh copy of the argument
array; returns the new heap and the module variable's reference. -/
def setAllowedDirectories (h : Heap) (directories : Nat) : Heap × Nat :=
  h.alloc (h.read directories)

/-- Source `getAllowedDirectories`: `return [...allowedDirectories]` — a fresh
copy of the module array is allocated and its reference returned. -/
def getAllowedDirectories (h : Heap) (allowedRef : Nat) : Heap × Nat :=
  h.alloc (h.read allowedRef)

/-! ## Concrete oracles and environments used by the witness theorems -/

/-- A filesystem where every path resolves to itself (no symlinks anywhere). -/
def idOracle : FSOracle := ⟨fun p => .ok p⟩

/-- A filesystem where `/allowed/link` is a symlink to `/outside/target`. -/
def symlinkOracle : FSOracle :=
  ⟨fun p => if p = "/allowed/link" then .ok "/outside/target" else .ok p⟩

/-- A filesystem where `/allowed/newfile.txt` does not exist but everything
else resolves to itself. -/
def newFileOracle : FSOracle :=
  ⟨fun p => if p = "/allowed/newfile.txt" then .error "ENOENT" else .ok p⟩

/-- A filesystem where nothing exists. -/
def enoentOracle : FSOracle := ⟨fun _ => .error "ENOENT"⟩

/-- A filesystem where `/allowed/sub/newfile.txt` does not exist and its
parent directory `/allowed/sub` is a symlink resolving to `/outside/sub`,
outside every allowed root. -/
def parentEscapeOracle : FSOracle :=
  ⟨fun p =>
    if p = "/allowed/sub/newfile.txt" then .error "ENOENT"
    else if p = "/allowed/sub" then .ok "/outside/sub"
    else .ok p⟩

/-- Number of matches reported for one file by `searchInFile`. -/
def optCount : Option (List Nat) → Nat
  | none => 0
  | some ms => ms.length

/-! ## Theorems -/

/-- C1: a requested path whose home-expanded, absolutized, canonicalized form
is neither equal to an allowed directory nor nested under one with a proper
path-segment boundary makes `validatePath` fail with the access-denied error,
with an empty filesystem-call trace — in particular the outcome is the same
for every filesystem oracle, so no `realpath`, `stat`, read or write is
performed on the path. -/
theorem validatePath_outside_denied_no_fs (fs : FSOracle) (allowed : List String)
    (cwd home p : String)
    (h : isPathWithinAllowedDirectories
      (normalizePath (resolveAbsolute cwd (expandHome home p))) allowed = false) :
    validatePathT fs allowed cwd home p = (.error (.appError .accessDenied), []) := by
  simp [validatePathT, h]

theorem validatePath_outside_denied_no_fs_witness :
    isPathWithinAllowedDirectories
      (normalizePath (resolveAbsolute "/cwd" (expandHome "/home/u" "/etc/passwd")))
      ["/allowed"] = false ∧
    validatePathT idOracle ["/allowed"] "/cwd" "/home/u" "/etc/passwd"
      = (.error (.appError .accessDenied), []) :=
  ⟨by decide,
   validatePath_outside_denied_no_fs idOracle ["/allowed"] "/cwd" "/home/u"
     "/etc/passwd" (by decide)⟩

/-- C2: when the requested form passes the containment test and `fs.realpath`
succeeds, `validatePath` fails with the symlink-escape error if the resolved
target lies outside every allowed root (rather than returning it), and
returns the resolved real path if the target is contained. -/
theorem validatePath_symlink_resolution (fs : FSOracle) (allowed : List String)
    (cwd home p r : String)
    (hcont : isPathWithinAllowedDirectories
      (normalizePath (resolveAbsolute cwd (expandHome home p))) allowed = true)
    (hreal : fs.realpath (resolveAbsolute cwd (expandHome home p)) = .ok r) :
    (isPathWithinAllowedDirectories (normalizePath r) allowed = false →
      validatePath fs allowed cwd home p = .error (.appError .symlinkEscape)) ∧
    (isPathWithinAllowedDirectories (normalizePath r) allowed = true →
      validatePath fs allowed cwd home p = .ok r) := by
  constructor <;> intro h <;>
    simp [validatePath, validatePathT, JSError.errnoCode, hcont, hreal, h]

theorem validatePath_symlink_resolution_witness :
    validatePath symlinkOracle ["/allowed"] "/cwd" "/home/u" "/allowed/link"
      = .error (.appError .symlinkEscape) ∧
    validatePath symlinkOracle ["/allowed"] "/cwd" "/home/u" "/allowed/file.txt"
      = .ok "/allowed/file.txt" :=
  ⟨(validatePath_symlink_resolution symlinkOracle ["/allowed"] "/cwd" "/home/u"
      "/allowed/link" "/outside/target" (by decide) (by decide)).1 (by decide),
   (validatePath_symlink_resolution symlinkOracle ["/allowed"] "/cwd" "/home/u"
      "/allowed/file.txt" "/allowed/file.txt" (by decide) (by decide)).2 (by decide)⟩

/-- C3: counter to the claim, when the requested path passes containment, its
own resolution fails with `ENOENT`, and the parent's real path resolves to a
location outside every allowed root, `validatePath` reports the
parent-missing error: the `Access denied - parent directory outside allowed
directories` throw is swallowed by the bare `catch` that wraps the parent
lookup, which rethrows `Parent directory does not exist`.  Evaluated here at
the failing input `/allowed/sub/newfile.txt` with allowed root `/allowed` and
the parent a symlink to `/outside/sub`. -/
theorem validatePath_parent_escape_reports_parentMissing :
    validatePathT parentEscapeOracle ["/allowed"] "/cwd" "/home/u"
      "/allowed/sub/newfile.txt"
      = (.error (.appError .parentMissing),
         ["/allowed/sub/newfile.txt", "/allowed/sub"]) := by decide

/-- C4: when the requested path passes containment and its own resolution
fails with `ENOENT`, `validatePath` returns the original absolute unresolved
path if the parent's real path is contained in an allowed root, and fails
with the parent-missing error if the parent's resolution fails too. -/
theorem validatePath_nonexistent_target (fs : FSOracle) (allowed : List String)
    (cwd home p : String)
    (hcont : isPathWithinAllowedDirectories
      (normalizePath (resolveAbsolute cwd (expandHome home p))) allowed = true)
    (henoent : fs.realpath (resolveAbsolute cwd (expandHome home p)) = .error "ENOENT") :
    (∀ rp, fs.realpath (dirname (resolveAbsolute cwd (expandHome home p))) = .ok rp →
      isPathWithinAllowedDirectories (normalizePath rp) allowed = true →
      validatePath fs allowed cwd home p = .ok (resolveAbsolute cwd (expandHome home p))) ∧
    (∀ c, fs.realpath (dirname (resolveAbsolute cwd (expandHome home p))) = .error c →
      validatePath fs allowed cwd home p = .error (.appError .parentMissing)) := by
  constructor
  · intro rp hrp hin
    simp [validatePath, validatePathT, hcont, henoent, JSError.errnoCode, hrp, hin]
  · intro c hc
    simp [validatePath, validatePathT, hcont, henoent, JSError.errnoCode, hc]

theorem fsHas_fsRemove_self (s : Files) (p : String) :
    fsHas (fsRemove s p) p = false := by
  simp only [fsHas, fsRemove, List.any_eq_false, List.mem_filter]
  intro e he
  simpa using he.2

theorem fsGet_mapSet_of_has (s : Files) (p c : String) (h : fsHas s p = true) :
    fsGet (s.map (fun e => if e.1 = p then (p, c) else e)) p = some c := by
  induction s with
  | nil => simp [fsHas] at h
  | cons e t ih =>
    by_cases he : e.1 = p
    · simp [fsGet, List.find?, he]
    · simp only [fsHas, List.any_cons, Bool.or_eq_true, decide_eq_true_eq] at h
      rcases h with h | h
      · exact absurd h he
      · simpa [fsGet, List.find?, he] using ih h

theorem fsGet_append_single (s : Files) (p c : String) (h : fsHas s p = false) :
    fsGet (s ++ [(p, c)]) p = some c := by
  induction s with
  | nil => simp [fsGet, List.find?]
  | cons e t ih =>
    simp only [fsHas, List.any_cons, Bool.or_eq_false_iff, decide_eq_false_iff_not] at h
    simpa [fsGet, List.find?, h.1] using ih (by simpa [fsHas] using h.2)

theorem fsGet_fsSet_self (s : Files) (p c : String) :
    fsGet (fsSet s p c) p = some c := by
  unfold fsSet
  by_cases h : fsHas s p
  · simpa [h] using fsGet_mapSet_of_has s p c h
  · simpa [h] using fsGet_append_single s p c (by simpa using h)

theorem fsHas_of_fsGet (s : Files) (p c : String) (h : fsGet s p = some c) :
    fsHas s p = true := by
  induction s with
  | nil => simp [fsGet, List.find?] at h
  | cons e t ih =>
    by_cases he : e.1 = p
    · simp [fsHas, List.any_cons, he]
    · rw [fsGet, List.find?_cons_of_neg _ (by simpa using he)] at h
      simp only [fsHas, List.any_cons, Bool.or_eq_true, decide_eq_true_eq]
      exact Or.inr (ih h)

/-- C5: `writeFileContent` first attempts an exclusive create, which fails
whenever the target entry exists (a symlink included); only on that
exists-failure does it write a randomly named sibling temp file and rename
it over the target; a rename or temp-write failure deletes the temp file and
propagates the original error, leaving no temp file behind whenever the
deletion succeeds; and a non-exists exclusive-create error propagates
unchanged with the state untouched, no temp file ever created. -/
theorem writeFileContent_discipline (env : WriteEnv) (s : Files)
    (filePath content : String)
    (htemp : fsHas s (tempPathOf filePath env.tempSuffix) = false) :
    (fsHas s filePath = false → env.wxExtraFail = none →
      writeFileContent env s filePath content = (.ok (), fsSet s filePath content)) ∧
    (fsHas s filePath = true → env.tmpWriteFail = none → env.renameFail = none →
      writeFileContent env s filePath content
        = (.ok (), fsSet (fsRemove (fsSet s (tempPathOf filePath env.tempSuffix) content)
            (tempPathOf filePath env.tempSuffix)) filePath content)) ∧
    (∀ e, fsHas s filePath = true → env.tmpWriteFail = none → env.renameFail = some e →
      env.unlinkFail = false →
      (writeFileContent env s filePath content).1 = .error e ∧
      fsHas (writeFileContent env s filePath content).2
        (tempPathOf filePath env.tempSuffix) = false) ∧
    (∀ e, fsHas s filePath = true → env.tmpWriteFail = some e →
      writeFileContent env s filePath content = (.error e, s)) ∧
    (∀ c, fsHas s filePath = false → env.wxExtraFail = some c → c ≠ "EEXIST" →
      writeFileContent env s filePath content = (.error c, s)) := by
  refine ⟨fun hno hwx => ?_, fun hyes htw hrn => ?_, fun e hyes htw hrn hul => ?_,
    fun e hyes htw => ?_, fun c hno hwx hne => ?_⟩
  · simp [writeFileContent, wxWriteFile, hno, hwx]
  · simp [writeFileContent, wxWriteFile, plainWriteFile, renameFile, hyes, htw, hrn,
      fsGet_fsSet_self]
  · have hget := fsGet_fsSet_self s (tempPathOf filePath env.tempSuffix) content
    have hhas := fsHas_of_fsGet _ _ _ hget
    constructor
    · simp [writeFileContent, wxWriteFile, plainWriteFile, renameFile, unlinkFile,
        hyes, htw, hrn, hul, hhas]
    · simp [writeFileContent, wxWriteFile, plainWriteFile, renameFile, unlinkFile,
        hyes, htw, hrn, hul, hhas, fsHas_fsRemove_self]
  · cases hul : env.unlinkFail <;>
      simp [writeFileContent, wxWriteFile, plainWriteFile, unlinkFile, hyes, htw,
        hul, htemp]
  · simp [writeFileContent, wxWriteFile, hno, hwx, hne]

theorem writeFileContent_discipline_witness :
    writeFileContent ⟨"aa", none, none, none, false⟩ [] "/f" "c"
      = (.ok (), [("/f", "c")]) ∧
    writeFileContent ⟨"aa", none, none, none, false⟩ [("/f", "old")] "/f" "c"
      = (.ok (), fsSet (fsRemove (fsSet [("/f", "old")] (tempPathOf "/f" "aa") "c")
          (tempPathOf "/f" "aa")) "/f" "c") ∧
    (writeFileContent ⟨"aa", none, none, some "EACCES", false⟩ [("/f", "old")] "/f" "c").1
      = .error "EACCES" ∧
    fsHas (writeFileContent ⟨"aa", none, none, some "EACCES", false⟩
      [("/f", "old")] "/f" "c").2 (tempPathOf "/f" "aa") = false ∧
    writeFileContent ⟨"aa", none, some "ENOSPC", none, false⟩ [("/f", "old")] "/f" "c"
      = (.error "ENOSPC", [("/f", "old")]) ∧
    writeFileContent ⟨"aa", some "EACCES", none, none, false⟩ [] "/f" "c"
      = (.error "EACCES", []) := by
  refine ⟨?_, ?_, ?_, ?_, ?_, ?_⟩
  · exact (writeFileContent_discipline ⟨"aa", none, none, none, false⟩ [] "/f" "c"
      (by decide)).1 (by decide) rfl
  · exact (writeFileContent_discipline ⟨"aa", none, none, none, false⟩ [("/f", "old")]
      "/f" "c" (by decide)).2.1 (by decide) rfl rfl
  · exact ((writeFileContent_discipline ⟨"aa", none, none, some "EACCES", false⟩
      [("/f", "old")] "/f" "c" (by decide)).2.2.1 "EACCES" (by decide) rfl rfl rfl).1
  · exact ((writeFileContent_discipline ⟨"aa", none, none, some "EACCES", false⟩
      [("/f", "old")] "/f" "c" (by decide)).2.2.1 "EACCES" (by decide) rfl rfl rfl).2
  · exact (writeFileContent_discipline ⟨"aa", none, some "ENOSPC", none, false⟩
      [("/f", "old")] "/f" "c" (by decide)).2.2.2.1 "ENOSPC" (by decide) rfl
  · exact (writeFileContent_discipline ⟨"aa", some "EACCES", none, none, false⟩
      [] "/f" "c" (by decide)).2.2.2.2 "EACCES" (by decide) rfl (by decide)

theorem validatePath_nonexistent_target_witness :
    validatePath newFileOracle ["/allowed"] "/cwd" "/home/u" "/allowed/newfile.txt"
      = .ok "/allowed/newfile.txt" ∧
    validatePath enoentOracle ["/allowed"] "/cwd" "/home/u" "/allowed/nodir/newfile.txt"
      = .error (.appError .parentMissing) :=
  ⟨(validatePath_nonexistent_target newFileOracle ["/allowed"] "/cwd" "/home/u"
      "/allowed/newfile.txt" (by decide) (by decide)).1 "/allowed" (by decide) (by decide),
   (validatePath_nonexistent_target enoentOracle ["/allowed"] "/cwd" "/home/u"
      "/allowed/nodir/newfile.txt" (by decide) (by decide)).2 "ENOENT" (by decide)⟩

theorem applyEditsPure_append (content : String) (pre rest : List FileEdit) :
    applyEditsPure content (pre ++ rest)
      = match applyEditsPure content pre with
        | .ok c => applyEditsPure c rest
        | .error m => .error m := by
  induction pre generalizing content with
  | nil => simp [applyEditsPure]
  | cons e t ih =>
    simp only [List.cons_append, applyEditsPure]
    cases applyEdit content e with
    | ok c => exact ih c
    | error m => rfl

/-- C6: if, after the edits before it have been applied, an edit's `oldText`
has neither an exact substring occurrence nor a whitespace-trimmed
line-window match in the evolving content, `applyFileEdits` fails with the
no-match error carrying that `oldText` and the file state is returned
untouched — no write of any kind is attempted, so no prefix of the edit list
is ever persisted; and with `dryRun = true` the file state is never modified
for any edit list. -/
theorem applyFileEdits_aborts_on_noMatch (env : EditEnv) (s : Files)
    (filePath raw c : String) (pre post : List FileEdit) (e : FileEdit) (dryRun : Bool)
    (hread : fsGet s filePath = some raw)
    (hpre : applyEditsPure (normalizeLineEndings raw) pre = .ok c)
    (hnoExact : jsIncludes c (normalizeLineEndings e.oldText) = false)
    (hnoWindow : findMatchIndex (jsSplitNl (normalizeLineEndings e.oldText))
      (jsSplitNl c) = none) :
    applyFileEdits env s filePath (pre ++ e :: post) dryRun
      = (.error (.noMatchFound e.oldText), s) ∧
    ∀ edits, (applyFileEdits env s filePath edits true).2 = s := by
  constructor
  · have hedit : applyEdit c e = .error e.oldText := by
      simp [applyEdit, hnoExact, hnoWindow]
    have hfail : applyEditsPure (normalizeLineEndings raw) (pre ++ e :: post)
        = .error e.oldText := by
      rw [applyEditsPure_append, hpre]
      simp [applyEditsPure, hedit]
    simp [applyFileEdits, hread, hfail]
  · intro edits
    unfold applyFileEdits
    cases hg : fsGet s filePath with
    | none => rfl
    | some raw' =>
      cases hpe : applyEditsPure (normalizeLineEndings raw') edits <;> simp [hpe]

theorem applyFileEdits_aborts_on_noMatch_witness :
    applyFileEdits ⟨"aa", none, none, false, fun _ _ => ""⟩ [("/f", "hello\nworld")]
      "/f" [⟨"absent", "x"⟩] false
      = (.error (.noMatchFound "absent"), [("/f", "hello\nworld")]) ∧
    (applyFileEdits ⟨"aa", none, none, false, fun _ _ => ""⟩ [("/f", "hello\nworld")]
      "/f" [⟨"world", "x"⟩] true).2 = [("/f", "hello\nworld")] :=
  ⟨(applyFileEdits_aborts_on_noMatch ⟨"aa", none, none, false, fun _ _ => ""⟩
      [("/f", "hello\nworld")] "/f" "hello\nworld" "hello\nworld" [] []
      ⟨"absent", "x"⟩ false (by decide) (by decide) (by decide) (by decide)).1,
   (applyFileEdits_aborts_on_noMatch ⟨"aa", none, none, false, fun _ _ => ""⟩
      [("/f", "hello\nworld")] "/f" "hello\nworld" "hello\nworld" [] []
      ⟨"absent", "x"⟩ false (by decide) (by decide) (by decide) (by decide)).2
      [⟨"world", "x"⟩]⟩

theorem grepFileLines_spec (ctx : GrepCtx) (lines : List String) (i total : Nat) :
    (grepFileLines ctx lines i total).1.length
        = min (ctx.maxResults - total) (lines.countP (fun l => ctx.matchesPattern l)) ∧
    (grepFileLines ctx lines i total).2
        = total + (grepFileLines ctx lines i total).1.length := by
  induction lines generalizing i total with
  | nil => simp [grepFileLines]
  | cons line rest ih =>
    by_cases h1 : total ≥ ctx.maxResults
    · simp [grepFileLines, h1, Nat.sub_eq_zero_of_le h1]
    · cases h2 : ctx.matchesPattern line
      · have hih := ih (i + 1) total
        simp only [grepFileLines, if_neg h1, h2, Bool.false_eq_true, if_false,
          List.countP_cons, h2, decide_eq_true_eq]
        constructor
        · rw [hih.1]
          simp
        · exact hih.2
      · have hih := ih (i + 1) (total + 1)
        simp only [grepFileLines, if_neg h1, h2, if_true, List.countP_cons,
          List.length_cons, decide_eq_true_eq]
        constructor
        · rw [hih.1]
          omega
        · rw [hih.2, hih.1]
          omega

theorem searchInFile_spec (ctx : GrepCtx) (fsg : GrepFS) (f : String) (total : Nat) :
    optCount (searchInFile ctx fsg f total).1
        = min (ctx.maxResults - total) (fileAvail ctx fsg f) ∧
    (searchInFile ctx fsg f total).2
        = total + optCount (searchInFile ctx fsg f total).1 := by
  unfold searchInFile fileAvail
  by_cases h1 : total ≥ ctx.maxResults
  · simp [h1, Nat.sub_eq_zero_of_le h1, optCount]
  · cases hv : fsg.validateOk f
    · simp [h1, hv, optCount]
    · cases he : fsg.excluded f
      · cases hr : fsg.readFileOk f with
        | none => simp [h1, hv, he, hr, optCount]
        | some content =>
          have hg := grepFileLines_spec ctx
            (jsSplitNl (normalizeLineEndings content)) 0 total
          by_cases hemp :
              (grepFileLines ctx (jsSplitNl (normalizeLineEndings content)) 0 total).1.isEmpty
          · have hlen : (grepFileLines ctx
                (jsSplitNl (normalizeLineEndings content)) 0 total).1.length = 0 := by
              simpa [List.isEmpty_iff] using hemp
            simp only [h1, if_neg h1, hv, Bool.not_true, Bool.false_eq_true, if_false,
              he, hr, hemp, if_true, optCount]
            exact ⟨by rw [← hg.1, hlen], by rw [hg.2, hlen]⟩
          · simp only [h1, if_neg h1, hv, Bool.not_true, Bool.false_eq_true, if_false,
              he, hr, hemp, optCount]
            exact ⟨hg.1, hg.2⟩
      · simp [h1, hv, he, optCount]

theorem searchFiles_spec (ctx : GrepCtx) (fsg : GrepFS) (files : List String)
    (total : Nat) :
    ((searchFiles ctx fsg files total).1.map (fun r => r.2.length)).sum
        = min (ctx.maxResults - total) ((files.map (fileAvail ctx fsg)).sum) ∧
    (searchFiles ctx fsg files total).2
        = total + ((searchFiles ctx fsg files total).1.map (fun r => r.2.length)).sum := by
  induction files generalizing total with
  | nil => simp [searchFiles]
  | cons f rest ih =>
    by_cases h1 : total ≥ ctx.maxResults
    · simp [searchFiles, h1, Nat.sub_eq_zero_of_le h1]
    · have hsf := searchInFile_spec ctx fsg f total
      simp only [searchFiles, if_neg h1, List.map_cons, List.sum_cons]
      cases hr : searchInFile ctx fsg f total with
      | mk o t =>
        rw [hr] at hsf
        cases o with
        | none =>
          obtain ⟨ha, hb⟩ := hsf
          simp only [optCount] at ha hb
          have ht : t = total := by omega
          subst ht
          obtain ⟨hc, hd⟩ := ih t
          refine ⟨?_, ?_⟩
          · rw [hc]; omega
          · rw [hd, hc]; try omega
        | some ms =>
          obtain ⟨ha, hb⟩ := hsf
          simp only [optCount] at ha hb
          obtain ⟨hc, hd⟩ := ih t
          simp only [List.map_cons, List.sum_cons]
          refine ⟨?_, ?_⟩
          · rw [hc]; omega
          · rw [hd, hc]; omega

/-- C8: for every content search, the per-file match counts reported by the
capped scan sum to the minimum of `maxResults` and the total number of
matching lines available across all files combined — hence at most
`maxResults` overall (not per file), and exactly `maxResults` whenever at
least that many matches exist. -/
theorem searchFileContents_global_cap (ctx : GrepCtx) (fsg : GrepFS)
    (files : List String) :
    ((searchFiles ctx fsg files 0).1.map (fun r => r.2.length)).sum
      = min ctx.maxResults ((files.map (fileAvail ctx fsg)).sum) := by
  simpa using (searchFiles_spec ctx fsg files 0).1

/-- C7: when the plocate tier is available and the glob translates to a
supported plocate pattern (as the recursive glob `**\/*.js` does), a plocate
rejection with exit status 1 — its "no matches" status — makes the search
return the empty list as a successful result with the Tier-3 in-process walk
never invoked, while a rejection with any other status falls through to the
walk. -/
theorem searchPaths_plocate_noMatches (env : PlocateEnv) (fs : FSOracle)
    (allowed : List String) (cwd home : String) (mm : String → String → Bool)
    (rootPath pattern : String) (excludePatterns : List String) (pp : String)
    (hava : env.available = true)
    (hpp : preparePatternForPlocate pattern = some pp) :
    (env.run pp = .error (some 1) →
      searchFilesWithValidationT env fs allowed cwd home mm rootPath pattern
        excludePatterns = ([], false)) ∧
    (∀ code, env.run pp = .error code → code ≠ some 1 →
      searchFilesWithValidationT env fs allowed cwd home mm rootPath pattern
        excludePatterns = (env.walkResults, true)) := by
  constructor
  · intro h
    simp [searchFilesWithValidationT, hava, hpp, h]
  · intro code h hne
    simp [searchFilesWithValidationT, hava, hpp, h, hne]

theorem searchPaths_plocate_noMatches_witness :
    preparePatternForPlocate "**/*.js" = some "*.js" ∧
    searchFilesWithValidationT ⟨true, fun _ => .error (some 1), ["/w"]⟩ idOracle
      ["/allowed"] "/cwd" "/h" (fun _ _ => false) "/allowed/dir" "**/*.js" []
      = ([], false) ∧
    searchFilesWithValidationT ⟨true, fun _ => .error (some 2), ["/w"]⟩ idOracle
      ["/allowed"] "/cwd" "/h" (fun _ _ => false) "/allowed/dir" "**/*.js" []
      = (["/w"], true) :=
  ⟨by decide,
   (searchPaths_plocate_noMatches ⟨true, fun _ => .error (some 1), ["/w"]⟩ idOracle
      ["/allowed"] "/cwd" "/h" (fun _ _ => false) "/allowed/dir" "**/*.js" []
      "*.js" rfl (by decide)).1 rfl,
   (searchPaths_plocate_noMatches ⟨true, fun _ => .error (some 2), ["/w"]⟩ idOracle
      ["/allowed"] "/cwd" "/h" (fun _ _ => false) "/allowed/dir" "**/*.js" []
      "*.js" rfl (by decide)).2 (some 2) rfl (by decide)⟩

/-- C9: on the newline-join of the lines a, b, c, d, e, `tailFile` with
`numLines = 3` returns the last three lines joined and `headFile` with
`numLines = 2` returns the first two; on an empty file `tailFile` returns the
empty string without opening the file for reading (the instrumentation flag
stays `false` for every requested line count). -/
theorem tailFile_headFile_examples :
    tailFileT "a\nb\nc\nd\ne" 3 = ("c\nd\ne", true) ∧
    headFile "a\nb\nc\nd\ne" 2 = "a\nb" ∧
    ∀ n, tailFileT "" n = ("", false) :=
  ⟨by decide, by decide, fun _ => rfl⟩

theorem listSet_getD_ne {α : Type} (d : α) (l : List α) (i j : Nat) (v : α)
    (hij : i ≠ j) : (l.set i v).getD j d = l.getD j d := by
  induction l generalizing i j with
  | nil => simp
  | cons a t ih =>
    cases i with
    | zero =>
      cases j with
      | zero => exact absurd rfl hij
      | succ j' => simp [List.set]
    | succ i' =>
      cases j with
      | zero => simp [List.set]
      | succ j' => simp only [List.set, List.getD_cons_succ]
                   exact ih i' j' (fun hh => hij (by omega))

theorem listGetD_append_self {α : Type} (d : α) (l : List α) (v : α) :
    (l ++ [v]).getD l.length d = v := by
  induction l with
  | nil => simp
  | cons a t ih =>
    simp only [List.cons_append, List.length_cons, List.getD_cons_succ]
    exact ih

/-- C10: the allow-list is defensively copied at both ends of the accessor
pair — `setAllowedDirectories` stores a copy of the array it is given and
`getAllowedDirectories` hands back a fresh copy — so mutating the caller's
array after passing it in, or mutating the returned array, leaves the stored
list, and hence every subsequent `validatePath` containment decision,
unchanged. -/
theorem allowList_defensive_copies (h : Heap) (callerRef : Nat)
    (hv : callerRef < h.arrs.length) :
    (∀ v, ((setAllowedDirectories h callerRef).1.write callerRef v).read
            (setAllowedDirectories h callerRef).2
          = (setAllowedDirectories h callerRef).1.read
            (setAllowedDirectories h callerRef).2) ∧
    (∀ v, ((getAllowedDirectories (setAllowedDirectories h callerRef).1
              (setAllowedDirectories h callerRef).2).1.write
            (getAllowedDirectories (setAllowedDirectories h callerRef).1
              (setAllowedDirectories h callerRef).2).2 v).read
            (setAllowedDirectories h callerRef).2
          = (getAllowedDirectories (setAllowedDirectories h callerRef).1
              (setAllowedDirectories h callerRef).2).1.read
            (setAllowedDirectories h callerRef).2) ∧
    (∀ v fs cwd home p,
        validatePath fs (((setAllowedDirectories h callerRef).1.write callerRef v).read
            (setAllowedDirectories h callerRef).2) cwd home p
        = validatePath fs ((setAllowedDirectories h callerRef).1.read
            (setAllowedDirectories h callerRef).2) cwd home p) := by
  have key : ∀ v, ((setAllowedDirectories h callerRef).1.write callerRef v).read
      (setAllowedDirectories h callerRef).2
      = (setAllowedDirectories h callerRef).1.read
        (setAllowedDirectories h callerRef).2 := by
    intro v
    simp only [setAllowedDirectories, Heap.alloc, Heap.read, Heap.write]
    exact listSet_getD_ne _ _ _ _ _ (by omega)
  refine ⟨key, fun v => ?_, fun v fs cwd home p => by rw [key v]⟩
  simp only [setAllowedDirectories, getAllowedDirectories, Heap.alloc, Heap.read,
    Heap.write]
  exact listSet_getD_ne _ _ _ _ _ (by simp)

theorem allowList_defensive_copies_witness :
    ((setAllowedDirectories ⟨[["/allowed"]]⟩ 0).1.write 0 ["/evil"]).read
        (setAllowedDirectories ⟨[["/allowed"]]⟩ 0).2
      = (setAllowedDirectories ⟨[["/allowed"]]⟩ 0).1.read
        (setAllowedDirectories ⟨[["/allowed"]]⟩ 0).2 ∧
    validatePath idOracle
        (((setAllowedDirectories ⟨[["/allowed"]]⟩ 0).1.write 0 ["/evil"]).read
          (setAllowedDirectories ⟨[["/allowed"]]⟩ 0).2) "/cwd" "/h" "/allowed/f"
      = validatePath idOracle
        ((setAllowedDirectories ⟨[["/allowed"]]⟩ 0).1.read
          (setAllowedDirectories ⟨[["/allowed"]]⟩ 0).2) "/cwd" "/h" "/allowed/f" :=
  ⟨(allowList_defensive_copies ⟨[["/allowed"]]⟩ 0 (by decide)).1 ["/evil"],
   (allowList_defensive_copies ⟨[["/allowed"]]⟩ 0 (by decide)).2.2 ["/evil"]
     idOracle "/cwd" "/h" "/allowed/f"⟩

end FsMcp
